import Mathlib

/-!
# Verification of the fuzzcheck-rs structured mutation engine

A shallow embedding, in Lean 4, of the parts of the `fuzzcheck-rs` repository
needed to settle the frozen claims:

* the integer-within-range mutators (`src/fuzzcheck/src/mutators/integer_within_range.rs`),
* the `MapMutator` and `AndMapMutator` combinators (`src/fuzzcheck/src/mutators/map.rs`),
* `UniqueValuesPool` (`src/fuzzcheck/src/sensors_and_pools/unique_values_pool.rs`),
* `TestFailurePool` and `TestFailureSensor`
  (`src/fuzzcheck/src/sensors_and_pools/test_failure_pool.rs`),
* `FixedBitSet` (`src/fuzzcheck/src/bitset.rs`).

Conventions of the embedding:

* machine integers (`u8`, `u64`) are `Nat` with explicit `% 2 ^ w` where wrapping
  matters; complexities (`f64`) are `ℚ` (every complexity appearing in the claims
  is exactly representable, and the code only compares and copies them);
* in-place mutation becomes explicit state passing: a Rust method
  `fn f(&mut self, x) -> R` becomes a Lean function `State → X → State × R`;
* code that can panic is embedded in `Except String`, where `.error msg`
  stands for the panic;
* `AHashMap` / `AHashSet` are association lists / duplicate-free lists: the
  source never depends on their iteration order in the functions modelled here.
-/

namespace Fuzzcheck

/-! ## Binary-search enumeration schedule

`binary_search_arbitrary_u8` lives in `crate::mutators::integer`, which is not
among the provided source files; it is therefore modelled from the spec. -/

/-- Fuelled worker for `binarySearchArbitrary` (fuel first, then
`low`, `high`, `step`); structural recursion on the fuel keeps the function
kernel-reducible. -/
def binarySearchArbitraryGo : Nat → Nat → Nat → Nat → Nat
  | 0, low, _, _ => low
  | fuel + 1, low, high, step =>
    if high ≤ low then low
    else
      let mid := low + (high - low) / 2
      if step = 0 then mid
      else if step % 2 = 1 then
        binarySearchArbitraryGo fuel low (mid - 1) ((step - 1) / 2)
      else
        binarySearchArbitraryGo fuel (mid + 1) high ((step - 2) / 2)

/-- Modelled from the spec: `binary_search_arbitrary_u8` from
`crate::mutators::integer` (the file is not under `src/`). Spec §4.2:
"`ordered_arbitrary` enumerates the range via a binary-search-style schedule
(`binary_search_arbitrary`) that visits values in an order biased toward
boundaries: first the midpoint, then the midpoints of the two halves,
recursively. Exhausts after `len+1` calls."
Step `0` yields the midpoint of `[low, high]`; odd steps recurse into the left
half, even positive steps into the right half.  The fuel `high - low` dominates
the recursion depth (the interval width strictly shrinks at every recursive
call), so the fuelled worker never hits its fuel-exhaustion branch. -/
def binarySearchArbitrary (low high step : Nat) : Nat :=
  binarySearchArbitraryGo (high - low) low high step

/-! ## The `U8WithinRangeMutator`

From `src/fuzzcheck/src/mutators/integer_within_range.rs`, instantiating the
macro `impl_int_mutator_constrained!(u8, u8, U8WithinRangeMutator,
binary_search_arbitrary_u8)`.  `u8` values are `Nat`s; wrapping arithmetic is
`% 256`.  The `fastrand::Rng` is embedded as an explicit argument carrying the
value the generator would draw (the code uses the rng only to draw one value
from `start..=start+len`). -/

/-- The state of `U8WithinRangeMutator`: `start_range` and
`len_range = end.wrapping_sub(start)` (the rng field carries no data in the
embedding). -/
structure U8WithinRangeMutator where
  start_range : Nat
  len_range : Nat
deriving DecidableEq, Repr

namespace U8WithinRangeMutator

/-- `U8WithinRangeMutator::new(start..=stop)` for inclusive bounds already
reduced to values: panics (`none`) when `start > stop`, otherwise stores
`(start, stop.wrapping_sub(start))`. -/
def new (start stop : Nat) : Option U8WithinRangeMutator :=
  if start ≤ stop then some ⟨start, (stop + 256 - start) % 256⟩ else none

/-- `default_arbitrary_step`: `0`. -/
def default_arbitrary_step (_m : U8WithinRangeMutator) : Nat := 0

/-- `validate_value`: the source returns `Some(())` unconditionally. -/
def validate_value (_m : U8WithinRangeMutator) (_value : Nat) : Option Unit :=
  some ()

/-- `default_mutation_step`: `INITIAL_MUTATION_STEP = 0`. -/
def default_mutation_step (_m : U8WithinRangeMutator) (_value : Nat)
    (_cache : Unit) : Nat := 0

/-- `max_complexity`: `u8::BITS = 8`. -/
def max_complexity (_m : U8WithinRangeMutator) : ℚ := 8

/-- `min_complexity`: `u8::BITS = 8`. -/
def min_complexity (_m : U8WithinRangeMutator) : ℚ := 8

/-- `complexity`: constant `u8::BITS = 8`. -/
def complexity (_m : U8WithinRangeMutator) (_value : Nat) (_cache : Unit) : ℚ :=
  8

/-- `ordered_arbitrary(&mut step, max_cplx)`: returns the generated value (and
its complexity) together with the updated step. -/
def ordered_arbitrary (m : U8WithinRangeMutator) (step : Nat) (max_cplx : ℚ) :
    Option (Nat × ℚ) × Nat :=
  if max_cplx < m.min_complexity then (none, step)
  else if m.len_range < step then (none, step)
  else
    let result := binarySearchArbitrary 0 m.len_range step
    (some ((m.start_range + result) % 256, 8), (step + 1) % 2 ^ 64)

/-- `random_arbitrary(max_cplx)`: the rng draw from
`start..=start.wrapping_add(len)` is the explicit argument `r`. -/
def random_arbitrary (_m : U8WithinRangeMutator) (r : Nat) (_max_cplx : ℚ) :
    Nat × ℚ :=
  (r, 8)

/-- `ordered_mutate(&mut value, &mut cache, &mut step, max_cplx)`: returns
`Option (token, cplx)` together with the updated value, cache and step. -/
def ordered_mutate (m : U8WithinRangeMutator) (value : Nat) (cache : Unit)
    (step : Nat) (max_cplx : ℚ) : Option (Nat × ℚ) × Nat × Unit × Nat :=
  if max_cplx < m.min_complexity then (none, value, cache, step)
  else if m.len_range < step then (none, value, cache, step)
  else
    let token := value
    let result := binarySearchArbitrary 0 m.len_range step
    (some (token, 8), (m.start_range + result) % 256, cache, (step + 1) % 2 ^ 64)

/-- `random_mutate(&mut value, &mut cache, max_cplx)`: the rng draw is the
explicit argument `r`; the token is the replaced old value. -/
def random_mutate (_m : U8WithinRangeMutator) (r : Nat) (value : Nat)
    (cache : Unit) (_max_cplx : ℚ) : (Nat × ℚ) × Nat × Unit :=
  ((value, 8), r, cache)

/-- `unmutate(&mut value, &mut cache, t)`: `*value = t`. -/
def unmutate (_m : U8WithinRangeMutator) (_value : Nat) (cache : Unit)
    (t : Nat) : Nat × Unit :=
  (t, cache)

end U8WithinRangeMutator

end Fuzzcheck

namespace Fuzzcheck

/-- The concrete mutator `U8WithinRangeMutator::new(10..=12)` used by the
claims: `start_range = 10`, `len_range = 2`. -/
def m10to12 : U8WithinRangeMutator := ⟨10, 2⟩

theorem new_10_12_eq : U8WithinRangeMutator.new 10 12 = some m10to12 := by
  decide

/-! ## The `Mutator` trait as a record of operations

`MapMutator` and `AndMapMutator` are generic over an inner `M: Mutator<From>`.
The trait (`fuzzcheck::Mutator`) is embedded as a record of the operations the
combinators forward to.  In-place mutation is explicit state passing; the rng
and the crossover `SubValueProvider` are sources of one value per call and are
embedded as deterministic functions (choosing the drawn value is up to the
instance). -/

/-- The operations of a `Mutator<V>` with cache `C`, mutation step `S`,
arbitrary step `AS` and unmutate token `T`. -/
structure MutatorOps (V C S AS T : Type) where
  default_arbitrary_step : AS
  validate_value : V → Option C
  default_mutation_step : V → C → S
  max_complexity : ℚ
  min_complexity : ℚ
  complexity : V → C → ℚ
  ordered_arbitrary : AS → ℚ → Option (V × ℚ) × AS
  random_arbitrary : ℚ → V × ℚ
  ordered_mutate : V → C → S → ℚ → Option (T × ℚ) × V × C × S
  random_mutate : V → C → ℚ → (T × ℚ) × V × C
  crossover_mutate : V → C → ℚ → (T × ℚ) × V × C
  unmutate : V → C → T → V × C

/-- `U8WithinRangeMutator` packaged as a `MutatorOps`; `r` is the value the
`fastrand::Rng` draws on a random call. -/
def u8Ops (m : U8WithinRangeMutator) (r : Nat) :
    MutatorOps Nat Unit Nat Nat Nat where
  default_arbitrary_step := m.default_arbitrary_step
  validate_value := m.validate_value
  default_mutation_step := m.default_mutation_step
  max_complexity := m.max_complexity
  min_complexity := m.min_complexity
  complexity := m.complexity
  ordered_arbitrary := m.ordered_arbitrary
  random_arbitrary := m.random_arbitrary r
  ordered_mutate := m.ordered_mutate
  random_mutate v c cplx := m.random_mutate r v c cplx
  crossover_mutate v c cplx := m.random_mutate r v c cplx
  unmutate := m.unmutate

/-! ## `MapMutator` (`src/fuzzcheck/src/mutators/map.rs`, lines 5–206) -/

/-- The cache of `MapMutator`: the `From` value and `From`'s cache. -/
structure MapCache (From C : Type) where
  from_value : From
  from_cache : C
deriving DecidableEq, Repr

/-- `MapMutator<From, To, M, Parse, Map>`: an inner mutator over `From`, a
`parse : To → Option From` and a `map : From → To`. -/
structure MapMutator (From To C S AS T : Type) where
  mutator : MutatorOps From C S AS T
  parse : To → Option From
  map : From → To

namespace MapMutator

variable {From To C S AS T : Type}

/-- `MapMutator::validate_value`: `parse` the `To`, validate the `From`,
store both in the cache. -/
def validate_value (m : MapMutator From To C S AS T) (to_value : To) :
    Option (MapCache From C) := do
  let from_value ← m.parse to_value
  let from_cache ← m.mutator.validate_value from_value
  some ⟨from_value, from_cache⟩

/-- `MapMutator::complexity`: forwarded to the inner mutator on the cache. -/
def complexity (m : MapMutator From To C S AS T) (_value : To)
    (cache : MapCache From C) : ℚ :=
  m.mutator.complexity cache.from_value cache.from_cache

/-- `MapMutator::ordered_arbitrary`. -/
def ordered_arbitrary (m : MapMutator From To C S AS T) (step : AS)
    (max_cplx : ℚ) : Option (To × ℚ) × AS :=
  match m.mutator.ordered_arbitrary step max_cplx with
  | (none, step') => (none, step')
  | (some (from_value, cplx), step') => (some (m.map from_value, cplx), step')

/-- `MapMutator::random_arbitrary`. -/
def random_arbitrary (m : MapMutator From To C S AS T) (max_cplx : ℚ) :
    To × ℚ :=
  let (from_value, cplx) := m.mutator.random_arbitrary max_cplx
  (m.map from_value, cplx)

/-- `MapMutator::ordered_mutate`: mutate the cached `From`, then recompute the
`To` from it. -/
def ordered_mutate (m : MapMutator From To C S AS T) (value : To)
    (cache : MapCache From C) (step : S) (max_cplx : ℚ) :
    Option (T × ℚ) × To × MapCache From C × S :=
  match m.mutator.ordered_mutate cache.from_value cache.from_cache step
      max_cplx with
  | (none, _, _, step') => (none, value, cache, step')
  | (some (token, cplx), from_value', from_cache', step') =>
    (some (token, cplx), m.map from_value', ⟨from_value', from_cache'⟩, step')

/-- `MapMutator::random_mutate`. -/
def random_mutate (m : MapMutator From To C S AS T) (_value : To)
    (cache : MapCache From C) (max_cplx : ℚ) :
    (T × ℚ) × To × MapCache From C :=
  let ((token, cplx), from_value', from_cache') :=
    m.mutator.random_mutate cache.from_value cache.from_cache max_cplx
  ((token, cplx), m.map from_value', ⟨from_value', from_cache'⟩)

/-- `MapMutator::crossover_mutate`. -/
def crossover_mutate (m : MapMutator From To C S AS T) (_value : To)
    (cache : MapCache From C) (max_cplx : ℚ) :
    (T × ℚ) × To × MapCache From C :=
  let ((token, cplx), from_value', from_cache') :=
    m.mutator.crossover_mutate cache.from_value cache.from_cache max_cplx
  ((token, cplx), m.map from_value', ⟨from_value', from_cache'⟩)

/-- `MapMutator::unmutate`: unmutate the cached `From`, then recompute the
`To` from it. -/
def unmutate (m : MapMutator From To C S AS T) (_value : To)
    (cache : MapCache From C) (t : T) : To × MapCache From C :=
  let (from_value', from_cache') :=
    m.mutator.unmutate cache.from_value cache.from_cache t
  (m.map from_value', ⟨from_value', from_cache'⟩)

end MapMutator

/-! ## `AndMapMutator` (`src/fuzzcheck/src/mutators/map.rs`, lines 208–391)

The mutated value is the pair `(To, From)`.  The Rust `map: Fn(&From, &mut To)`
updates a `To` in place; it is embedded as `map : From → To → To` returning the
updated `To`. -/

/-- `AndMapMutator<From, To, M, Map>`. -/
structure AndMapMutator (From To C S AS T : Type) where
  mutator : MutatorOps From C S AS T
  map : From → To → To
  storage_to : To

namespace AndMapMutator

variable {From To C S AS T : Type}

/-- `AndMapMutator::validate_value`: validates only the `From` component; the
cache is the inner cache. -/
def validate_value (m : AndMapMutator From To C S AS T) (value : To × From) :
    Option C :=
  m.mutator.validate_value value.2

/-- `AndMapMutator::complexity`. -/
def complexity (m : AndMapMutator From To C S AS T) (value : To × From)
    (cache : C) : ℚ :=
  m.mutator.complexity value.2 cache

/-- `AndMapMutator::ordered_arbitrary`: generate a `From`, clone the storage
and update it with `map`. -/
def ordered_arbitrary (m : AndMapMutator From To C S AS T) (step : AS)
    (max_cplx : ℚ) : Option ((To × From) × ℚ) × AS :=
  match m.mutator.ordered_arbitrary step max_cplx with
  | (none, step') => (none, step')
  | (some (from_value, cplx), step') =>
    (some ((m.map from_value m.storage_to, from_value), cplx), step')

/-- `AndMapMutator::random_arbitrary`. -/
def random_arbitrary (m : AndMapMutator From To C S AS T) (max_cplx : ℚ) :
    (To × From) × ℚ :=
  let (from_value, cplx) := m.mutator.random_arbitrary max_cplx
  ((m.map from_value m.storage_to, from_value), cplx)

/-- `AndMapMutator::ordered_mutate`: mutate the `From` component in place,
then update the `To` component with `map`. -/
def ordered_mutate (m : AndMapMutator From To C S AS T) (value : To × From)
    (cache : C) (step : S) (max_cplx : ℚ) :
    Option (T × ℚ) × (To × From) × C × S :=
  match m.mutator.ordered_mutate value.2 cache step max_cplx with
  | (none, from_value', cache', step') =>
    (none, (value.1, from_value'), cache', step')
  | (some (token, cplx), from_value', cache', step') =>
    (some (token, cplx), (m.map from_value' value.1, from_value'), cache',
      step')

/-- `AndMapMutator::random_mutate`. -/
def random_mutate (m : AndMapMutator From To C S AS T) (value : To × From)
    (cache : C) (max_cplx : ℚ) : (T × ℚ) × (To × From) × C :=
  let ((token, cplx), from_value', cache') :=
    m.mutator.random_mutate value.2 cache max_cplx
  ((token, cplx), (m.map from_value' value.1, from_value'), cache')

/-- `AndMapMutator::crossover_mutate`. -/
def crossover_mutate (m : AndMapMutator From To C S AS T) (value : To × From)
    (cache : C) (max_cplx : ℚ) : (T × ℚ) × (To × From) × C :=
  let ((token, cplx), from_value', cache') :=
    m.mutator.crossover_mutate value.2 cache max_cplx
  ((token, cplx), (m.map from_value' value.1, from_value'), cache')

/-- `AndMapMutator::unmutate`: unmutates the `From` component and the cache
only; the `To` component is left as it is (the source never recomputes or
restores it here). -/
def unmutate (m : AndMapMutator From To C S AS T) (value : To × From)
    (cache : C) (t : T) : (To × From) × C :=
  let (from_value', cache') := m.mutator.unmutate value.2 cache t
  ((value.1, from_value'), cache')

end AndMapMutator

/-! ## Pool plumbing (`fuzzcheck::traits`)

`PoolStorageIndex` is `Nat`.  A `CorpusDelta`'s `PathBuf` is modelled as its
list of pushed components (the failure pool pushes the pool name, the error id
and the complexity formatted with four decimals). -/

/-- `CorpusDelta { path, add, remove }`. -/
structure CorpusDelta where
  path : List String
  add : Bool
  remove : List Nat
deriving DecidableEq, Repr

/-- `format!("{:.4}", cplx)` for a nonnegative rational complexity: the
integer part, a dot, and four (zero-padded) decimal digits of the value
rounded (ties upward) to four decimals.  `q * 10 ^ 4 + 1 / 2 =
(2 * q.num * 10 ^ 4 + q.den) / (2 * q.den)`, and its floor is the scaled
rounded value. -/
def formatCplx4 (q : ℚ) : String :=
  let n := (Int.fdiv (2 * (q.num * 10000) + q.den) (2 * q.den)).toNat
  let intPart := n / 10000
  let fracPart := n % 10000
  let fracStr := toString fracPart
  toString intPart ++ "." ++
    String.mk (List.replicate (4 - fracStr.length) '0') ++ fracStr

/-! ## `TestFailurePool` and `TestFailureSensor`
(`src/fuzzcheck/src/sensors_and_pools/test_failure_pool.rs`) -/

/-- `TestFailure { display, id }` (`id` is a `u64`). -/
structure TestFailure where
  display : String
  id : Nat
deriving DecidableEq, Repr

/-- `TestFailureListForError { cplx, inputs }`: one tier of artifacts sharing
a complexity. -/
structure TestFailureListForError where
  cplx : ℚ
  inputs : List Nat
deriving DecidableEq, Repr

/-- `TestFailureList { error, inputs }`: one failure class and its tiers. -/
structure TestFailureList where
  error : TestFailure
  inputs : List TestFailureListForError
deriving DecidableEq, Repr

/-- `TestFailurePool { name, inputs }`. -/
structure TestFailurePool where
  name : String
  inputs : List TestFailureList
deriving DecidableEq, Repr

namespace TestFailurePool

/-- `NBR_ARTIFACTS_PER_ERROR_AND_CPLX`. -/
def NBR_ARTIFACTS_PER_ERROR_AND_CPLX : Nat := 8

/-- `TestFailurePool::new(name)`. -/
def new (name : String) : TestFailurePool := ⟨name, []⟩

/-- `CompatibleWithObservations::process` for `TestFailurePool` (lines
150–233 of the source).  The `PositionOfNewInput` decision and the matching
update are inlined branch by branch. -/
def process (pool : TestFailurePool) (input_idx : Nat)
    (observations : Option TestFailure) (complexity : ℚ) :
    TestFailurePool × List CorpusDelta :=
  match observations with
  | none => (pool, [])
  | some error =>
    let deltaPath : List String :=
      [pool.name, toString error.id, formatCplx4 complexity]
    let delta : CorpusDelta := ⟨deltaPath, true, []⟩
    match pool.inputs.findIdx? (fun xs => xs.error.id = error.id) with
    | some list_index =>
      match pool.inputs.get? list_index with
      | none => (pool, [])
      | some list =>
        match list.inputs.getLast? with
        | some least_complex =>
          if complexity < least_complex.cplx then
            -- `PositionOfNewInput::ExistingErrorNewCplx`
            ({ pool with
                inputs := pool.inputs.set list_index
                  { list with
                      inputs := list.inputs ++ [⟨complexity, [input_idx]⟩] } },
              [delta])
          else if least_complex.cplx = complexity then
            if least_complex.inputs.length < NBR_ARTIFACTS_PER_ERROR_AND_CPLX
                ∧ ¬ pool.inputs.any
                    (fun xs => xs.error.display = error.display) then
              -- `PositionOfNewInput::ExistingErrorAndCplx`
              ({ pool with
                  inputs := pool.inputs.set list_index
                    { list with
                        inputs := list.inputs.dropLast ++
                          [⟨least_complex.cplx,
                            least_complex.inputs ++ [input_idx]⟩] } },
                [delta])
            else (pool, [])
          else (pool, [])
        | none =>
          -- `PositionOfNewInput::ExistingErrorNewCplx` on an empty class
          ({ pool with
              inputs := pool.inputs.set list_index
                { list with inputs := [⟨complexity, [input_idx]⟩] } },
            [delta])
    | none =>
      -- `PositionOfNewInput::NewError`
      ({ pool with
          inputs := pool.inputs ++
            [⟨error, [⟨complexity, [input_idx]⟩]⟩] },
        [delta])

/-- Fold a sequence of `process` calls (input index, observation, complexity)
over a pool, discarding the deltas. -/
def processAll (pool : TestFailurePool)
    (calls : List (Nat × Option TestFailure × ℚ)) : TestFailurePool :=
  calls.foldl (fun p c => (p.process c.1 c.2.1 c.2.2).1) pool

end TestFailurePool

/-! ### `TestFailureSensor`

The sensor state together with the process-wide `static mut TEST_FAILURE`
slot (line 10 of the source). -/

/-- Combined state of `TestFailureSensor` (`sensor_error` is the sensor's
`error` field) and the process-wide `TEST_FAILURE` slot. -/
structure SensorState where
  sensor_error : Option TestFailure
  test_failure : Option TestFailure
deriving DecidableEq, Repr

namespace SensorState

/-- `Sensor::start_recording`: clears the sensor-local error and the
process-wide slot. -/
def start_recording (_s : SensorState) : SensorState := ⟨none, none⟩

/-- Modelled from the spec: the writer of the `TEST_FAILURE` slot (the panic
handling code of the fuzzer driver, not under `src/`).  Spec §5: the slot is
"populated by panic handling at an arbitrary point during user code". -/
def record_failure (s : SensorState) (f : TestFailure) : SensorState :=
  { s with test_failure := some f }

/-- Run the user function: each failure recorded during the run is written to
the `TEST_FAILURE` slot in order. -/
def run (s : SensorState) (events : List TestFailure) : SensorState :=
  events.foldl record_failure s

/-- `Sensor::stop_recording`: copies the process-wide slot into the sensor. -/
def stop_recording (s : SensorState) : SensorState :=
  { s with sensor_error := s.test_failure }

/-- `Sensor::get_observations`: `std::mem::take(&mut self.error)`. -/
def get_observations (s : SensorState) : Option TestFailure × SensorState :=
  (s.sensor_error, { s with sensor_error := none })

end SensorState

/-! ## `UniqueValuesPool`
(`src/fuzzcheck/src/sensors_and_pools/unique_values_pool.rs`)

`AHashMap` is an association list (`alGet?` / `alInsert`), `AHashSet` a
duplicate-free list; the source never iterates either in `process`, so their
ordering is irrelevant.  Code that can panic (slab/vector indexing, the
`assert!`) runs in `Except String`, `.error` standing for the panic. -/

/-- Equality of `Except` results is decidable componentwise. -/
instance {ε α : Type} [DecidableEq ε] [DecidableEq α] :
    DecidableEq (Except ε α)
  | .error e, .error e' =>
    if h : e = e' then .isTrue (by rw [h])
    else .isFalse (by intro hh; cases hh; exact h rfl)
  | .error _, .ok _ => .isFalse (by intro h; cases h)
  | .ok _, .error _ => .isFalse (by intro h; cases h)
  | .ok a, .ok a' =>
    if h : a = a' then .isTrue (by rw [h])
    else .isFalse (by intro hh; cases hh; exact h rfl)

/-- `AHashMap::get`. -/
def alGet? {K V : Type} [DecidableEq K] (m : List (K × V)) (k : K) :
    Option V :=
  (m.find? (fun p => p.1 = k)).map (fun p => p.2)

/-- `AHashMap::insert` (replace the binding if the key is present, otherwise
add it). -/
def alInsert {K V : Type} [DecidableEq K] (m : List (K × V)) (k : K) (v : V) :
    List (K × V) :=
  if m.any (fun p => p.1 = k) then
    m.map (fun p => if p.1 = k then (k, v) else p)
  else m ++ [(k, v)]

/-- `Vec` indexing, a panic when out of bounds. -/
def vecGet {A : Type} (v : List A) (i : Nat) : Except String A :=
  match v.get? i with
  | some a => .ok a
  | none => .error "index out of bounds"

/-- Modelled from the spec: `crate::data_structures::Slab` (the file is not
under `src/`), the key-addressed store behind the pool state of §3
("best_input_handle", "opaque handle to the driver's input store"): `insert`
stores a record under a fresh key, `remove` deletes it, and indexing a missing
key is a fatal error. -/
structure Slab (A : Type) where
  entries : List (Nat × A)
  next_key : Nat
deriving DecidableEq, Repr

namespace Slab

/-- The empty slab (`Slab::new`). -/
def empty {A : Type} : Slab A := ⟨[], 0⟩

/-- `Slab::insert`: returns the updated slab and the fresh key. -/
def insert {A : Type} (s : Slab A) (a : A) : Slab A × Nat :=
  (⟨s.entries ++ [(s.next_key, a)], s.next_key + 1⟩, s.next_key)

/-- Keyed lookup. -/
def get? {A : Type} (s : Slab A) (k : Nat) : Option A :=
  alGet? s.entries k

/-- Keyed lookup with a panic (`.error`) on a missing key. -/
def get {A : Type} (s : Slab A) (k : Nat) : Except String A :=
  match s.get? k with
  | some a => .ok a
  | none => .error "invalid slab key"

/-- Overwrite the record under an existing key. -/
def setEntry {A : Type} (s : Slab A) (k : Nat) (a : A) : Slab A :=
  ⟨s.entries.map (fun p => if p.1 = k then (k, a) else p), s.next_key⟩

/-- `Slab::remove`. -/
def remove {A : Type} (s : Slab A) (k : Nat) : Slab A :=
  ⟨s.entries.filter (fun p => ¬ p.1 = k), s.next_key⟩

/-- `Slab::len`. -/
def len {A : Type} (s : Slab A) : Nat := s.entries.length

end Slab

/-- `Input<T>` (lines 39–47 of the source): the per-input record of a
`UniqueValuesPool`. -/
structure UVInput (K : Type) where
  best_for_values : List (Nat × K)
  data : Nat
  score : ℚ
deriving DecidableEq, Repr

/-- `UniqueValuesPool<T>` (lines 49–59): `stats_size` is the `size` field of
its `UniqueValuesPoolStats`. -/
structure UniqueValuesPool (K : Type) where
  name : String
  complexities : List (List (K × ℚ))
  inputs : Slab (UVInput K)
  best_input_for_value : List (List (K × Nat))
  stats_size : Nat
deriving DecidableEq, Repr

namespace UniqueValuesPool

/-- `UniqueValuesPool::new(name, size)`. -/
def new (K : Type) (name : String) (size : Nat) : UniqueValuesPool K :=
  ⟨name, List.replicate size [], Slab.empty, List.replicate size [], 0⟩

/-- `CompatibleWithObservations::process` for `UniqueValuesPool` (lines
147–217 of the source), translated statement by statement; the
`assert!(was_present_in_set)` on line 190 is the `.error
"assertion failed: was_present_in_set"`, and the trailing
`removed_keys.into_iter().map(|k| self.inputs[k].data)` on lines 203–209 runs
after the records were removed from the slab (line 201), exactly as in the
source. -/
def process {K : Type} [DecidableEq K] (pool : UniqueValuesPool K)
    (input_id : Nat) (observations : List (Nat × K)) (complexity : ℚ) :
    Except String (UniqueValuesPool K × List CorpusDelta) := do
  let mut state : List (Nat × K) := []
  for ov in observations do
    let (index, v) := ov
    let cmap ← vecGet pool.complexities index
    match alGet? cmap v with
    | some previous_cplx =>
      if complexity < previous_cplx then
        state := state ++ [(index, v)]
    | none =>
      state := state ++ [(index, v)]
  if state = [] then
    return (pool, [])
  let new_observations := state
  let score : ℚ := (new_observations.length : ℚ)
  let cplx := complexity
  let input : UVInput K := ⟨[], input_id, score⟩
  let (inserted, input_key) := pool.inputs.insert input
  let mut inputs := inserted
  let mut complexities := pool.complexities
  let mut best_input_for_value := pool.best_input_for_value
  let mut removed_keys : List Nat := []
  for ov in new_observations do
    let (counter, id) := ov
    let cmap ← vecGet complexities counter
    complexities := complexities.set counter (alInsert cmap id cplx)
    let bmap ← vecGet best_input_for_value counter
    match alGet? bmap id with
    | some previous_best_key =>
      let previous_best ← inputs.get previous_best_key
      let was_present_in_set :=
        (counter, id) ∈ previous_best.best_for_values
      let bfv := previous_best.best_for_values.filter
        (fun p => ¬ p = (counter, id))
      if ¬ was_present_in_set then
        throw "assertion failed: was_present_in_set"
      let previous_best' : UVInput K :=
        { previous_best with
            best_for_values := bfv, score := (bfv.length : ℚ) }
      if bfv = [] then
        removed_keys := removed_keys ++ [previous_best_key]
      inputs := inputs.setEntry previous_best_key previous_best'
      best_input_for_value :=
        best_input_for_value.set counter (alInsert bmap id input_key)
    | none =>
      best_input_for_value :=
        best_input_for_value.set counter (alInsert bmap id input_key)
  for removed_key in removed_keys do
    inputs := inputs.remove removed_key
  let mut removed_data : List Nat := []
  for k in removed_keys do
    let record ← inputs.get k
    removed_data := removed_data ++ [record.data]
  let pool' : UniqueValuesPool K :=
    { pool with
        complexities, inputs, best_input_for_value,
        stats_size := inputs.len }
  return (pool', [⟨[pool.name], true, removed_data⟩])

end UniqueValuesPool

/-! ## `FixedBitSet` (`src/fuzzcheck/src/bitset.rs`)

Blocks are `u64`s, embedded as `Nat`s (bitwise `|||`, `^^^` on two values
below `2 ^ 64` cannot overflow, so no wrapping is needed).  The operations
documented to panic out of bounds (`insert`, `put`, `toggle`) return `none`
for the panic; `contains` is total, exactly as the source's
`self.data.get(block)` match. -/

/-- `FixedBitSet { data, length }`; `length` is the length in bits. -/
structure FixedBitSet where
  data : List Nat
  length : Nat
deriving DecidableEq, Repr

namespace FixedBitSet

/-- `BITS = 64`. -/
def BITS : Nat := 64

/-- `FixedBitSet::new()`. -/
def new : FixedBitSet := ⟨[], 0⟩

/-- The number of blocks backing `bits` bits:
`div_rem(bits, BITS)` then `blocks += (rem > 0) as usize`. -/
def numBlocks (bits : Nat) : Nat :=
  bits / BITS + (if 0 < bits % BITS then 1 else 0)

/-- `FixedBitSet::with_capacity(bits)`. -/
def with_capacity (bits : Nat) : FixedBitSet :=
  ⟨List.replicate (numBlocks bits) 0, bits⟩

/-- `FixedBitSet::grow(bits)`: zero-extends (`Vec::resize`) when `bits`
exceeds the current length. -/
def grow (s : FixedBitSet) (bits : Nat) : FixedBitSet :=
  if s.length < bits then
    ⟨s.data ++ List.replicate (numBlocks bits - s.data.length) 0, bits⟩
  else s

/-- `FixedBitSet::contains(bit)`: total, `false` when the block is absent. -/
def contains (s : FixedBitSet) (bit : Nat) : Bool :=
  let block := bit / BITS
  let i := bit % BITS
  match s.data.get? block with
  | none => false
  | some b => b &&& (1 <<< i) ≠ 0

/-- `FixedBitSet::insert(bit)`: panics (`none`) when `bit` is out of
bounds. -/
def insert (s : FixedBitSet) (bit : Nat) : Option FixedBitSet :=
  if bit < s.length then
    let block := bit / BITS
    let i := bit % BITS
    some ⟨s.data.set block (s.data.getD block 0 ||| (1 <<< i)), s.length⟩
  else none

/-- `FixedBitSet::put(bit)`: sets the bit and returns its previous value;
panics (`none`) when `bit` is out of bounds. -/
def put (s : FixedBitSet) (bit : Nat) : Option (Bool × FixedBitSet) :=
  if bit < s.length then
    let block := bit / BITS
    let i := bit % BITS
    let word := s.data.getD block 0
    some (word &&& (1 <<< i) ≠ 0,
      ⟨s.data.set block (word ||| (1 <<< i)), s.length⟩)
  else none

/-- `FixedBitSet::toggle(bit)`: panics (`none`) when `bit` is out of
bounds. -/
def toggle (s : FixedBitSet) (bit : Nat) : Option FixedBitSet :=
  if bit < s.length then
    let block := bit / BITS
    let i := bit % BITS
    some ⟨s.data.set block (s.data.getD block 0 ^^^ (1 <<< i)), s.length⟩
  else none

/-- The representation invariant every `FixedBitSet` reachable through the
public constructors and methods satisfies: the block vector has exactly the
capacity's number of blocks, every block fits a `u64`, and every bit position
at or beyond `length` inside the allocated blocks is clear. -/
def WF (s : FixedBitSet) : Prop :=
  s.data.length = numBlocks s.length ∧
  (∀ b ∈ s.data, b < 2 ^ 64) ∧
  ∀ j < s.data.length, ∀ i < BITS,
    s.length ≤ j * BITS + i → s.data.getD j 0 &&& (1 <<< i) = 0

instance (s : FixedBitSet) : Decidable (WF s) := by
  unfold WF
  infer_instance

end FixedBitSet

end Fuzzcheck

namespace Fuzzcheck

/-! # Concrete instances used by the claims -/

/-- A `MapMutator` over `U8WithinRangeMutator::new(10..=12)` with the
identity `parse` and `map`. -/
def mapU8 : MapMutator Nat Nat Unit Nat Nat Nat :=
  ⟨u8Ops m10to12 0, fun n => some n, fun n => n⟩

/-- An `AndMapMutator` over `U8WithinRangeMutator::new(10..=12)` whose
`map` overwrites the `To` storage with the `From` value. -/
def andMapU8 : AndMapMutator Nat Nat Unit Nat Nat Nat :=
  ⟨u8Ops m10to12 0, fun f _t => f, 0⟩

/-- `UniqueValuesPool::new("unique", 2)`. -/
def uvPool0 : UniqueValuesPool String := UniqueValuesPool.new String "unique" 2

/-- The pool state after `uvPool0.process(0, [(0, "x")], 5.0)`: input `0`
stored with `score = 1` and an empty `best_for_values` set. -/
def uvPool1 : UniqueValuesPool String :=
  ⟨"unique", [[("x", 5)], []], ⟨[(0, ⟨[], 0, 1⟩)], 1⟩, [[("x", 0)], []], 1⟩

/-- `TestFailurePool::new("tf")`. -/
def tfPool0 : TestFailurePool := TestFailurePool.new "tf"

/-- The pool state after observing `(error = {display: "d", id: 1},
cplx = 10)` on input `0`: one class with one tier. -/
def tfPoolA : TestFailurePool := ⟨"tf", [⟨⟨"d", 1⟩, [⟨10, [0]⟩]⟩]⟩

/-! # The claims -/

/-- **C5** (code bug evidence). The claim says `validate_value(v)` of an
integer-within-range mutator returns `Some` iff `start ≤ v ≤ end`.  The code
returns `Some(())` for every value: here `U8WithinRangeMutator::new(10..=12)`
accepts `0`, which is outside `[10, 12]`. -/
theorem C5_validate_value_accepts_out_of_range :
    (∀ v : Nat, m10to12.validate_value v = some ()) ∧
    m10to12.validate_value 0 = some () ∧ ¬ (10 ≤ 0 ∧ 0 ≤ 12) :=
  ⟨fun _v => rfl, rfl, by decide⟩

/-- **C6**. For `U8WithinRangeMutator::new(10..=12)`, starting from the
default arbitrary step with any `max_cplx ≥ 8`, the first three
`ordered_arbitrary` calls yield `11`, `10`, `12` — pairwise distinct values
in `{10, 11, 12}`, each with complexity `8.0` — and every call whose step has
reached `3 = len + 1` returns `None` with the step unchanged (so all
subsequent calls return `None`). -/
theorem C6_ordered_arbitrary_enumerates_range (maxCplx : ℚ)
    (h : 8 ≤ maxCplx) :
    m10to12.ordered_arbitrary m10to12.default_arbitrary_step maxCplx
      = (some (11, 8), 1) ∧
    m10to12.ordered_arbitrary 1 maxCplx = (some (10, 8), 2) ∧
    m10to12.ordered_arbitrary 2 maxCplx = (some (12, 8), 3) ∧
    [(11 : Nat), 10, 12].Nodup ∧
    (∀ v ∈ [(11 : Nat), 10, 12], 10 ≤ v ∧ v ≤ 12) ∧
    ∀ step, 3 ≤ step → m10to12.ordered_arbitrary step maxCplx = (none, step) := by
  have hnot : ¬ maxCplx < 8 := not_lt.2 h
  refine ⟨?_, ?_, ?_, by decide, by decide, ?_⟩
  · simp only [U8WithinRangeMutator.ordered_arbitrary,
      U8WithinRangeMutator.min_complexity,
      U8WithinRangeMutator.default_arbitrary_step]
    rw [if_neg hnot]
    decide
  · simp only [U8WithinRangeMutator.ordered_arbitrary,
      U8WithinRangeMutator.min_complexity]
    rw [if_neg hnot]
    decide
  · simp only [U8WithinRangeMutator.ordered_arbitrary,
      U8WithinRangeMutator.min_complexity]
    rw [if_neg hnot]
    decide
  · intro step hstep
    simp only [U8WithinRangeMutator.ordered_arbitrary,
      U8WithinRangeMutator.min_complexity]
    rw [if_neg hnot, if_pos (show m10to12.len_range < step by
      show 2 < step; omega)]

/-- Witness for C6 at `max_cplx = 100`. -/
theorem C6_witness :
    (8 : ℚ) ≤ 100 ∧
    m10to12.ordered_arbitrary m10to12.default_arbitrary_step 100
      = (some (11, 8), 1) ∧
    m10to12.ordered_arbitrary 3 100 = (none, 3) :=
  ⟨by decide, (C6_ordered_arbitrary_enumerates_range 100 (by decide)).1,
    (C6_ordered_arbitrary_enumerates_range 100 (by decide)).2.2.2.2.2 3
      (by decide)⟩

/-- The `TEST_FAILURE` slot after running the user function holds the most
recent failure recorded during that run, or whatever it held before when the
run recorded none. -/
theorem run_test_failure (s : SensorState) (events : List TestFailure) :
    (s.run events).test_failure =
      match events.getLast? with
      | some f => some f
      | none => s.test_failure := by
  induction events generalizing s with
  | nil => rfl
  | cons e es ih =>
    show ((s.record_failure e).run es).test_failure = _
    rw [ih]
    cases es with
    | nil => rfl
    | cons e' es' =>
      rw [List.getLast?_cons_cons]
      cases h : (e' :: es').getLast? with
      | none => simp [List.getLast?_eq_none_iff] at h
      | some f => rfl

/-- **C9**. `start_recording` clears both the sensor-local error and the
process-wide `TEST_FAILURE` slot, so whatever the state left by previous
runs, the observation collected after the next run depends only on the
failures recorded during that run: it is the last of them, and `None` when
the run recorded none. -/
theorem C9_sensor_isolation (s : SensorState) (events : List TestFailure) :
    s.start_recording = ⟨none, none⟩ ∧
    ((s.start_recording.run events).stop_recording).get_observations.1
      = events.getLast? := by
  refine ⟨rfl, ?_⟩
  show ((s.start_recording.run events)).test_failure = _
  rw [run_test_failure]
  cases h : events.getLast? <;> rfl

end Fuzzcheck

namespace Fuzzcheck

/-- `with_capacity` establishes the representation invariant. -/
theorem with_capacity_WF (bits : Nat) : (FixedBitSet.with_capacity bits).WF := by
  refine ⟨by simp [FixedBitSet.with_capacity], ?_, ?_⟩
  · intro b hb
    rw [List.eq_of_mem_replicate hb]
    positivity
  · intro j hj i hi hle
    have h0 : (FixedBitSet.with_capacity bits).data.getD j 0 = 0 := by
      simp only [FixedBitSet.with_capacity, List.getD_eq_getElem?_getD,
        List.getElem?_replicate]
      split <;> rfl
    rw [h0]
    simp

/-- **C10**. `contains` is total and, on any well-formed `FixedBitSet` (every
set reachable through the public constructors and methods is), returns
`false` for every bit index at or beyond the capacity, while `insert`, `put`
and `toggle` panic (`none`) there. -/
theorem C10_contains_total_out_of_bounds_false (s : FixedBitSet) (bit : Nat)
    (hwf : s.WF) (hbit : s.length ≤ bit) :
    s.contains bit = false ∧ s.insert bit = none ∧ s.put bit = none ∧
    s.toggle bit = none := by
  obtain ⟨hlen, hblocks, hzero⟩ := hwf
  have hnot : ¬ bit < s.length := by omega
  refine ⟨?_, by simp [FixedBitSet.insert, hnot],
    by simp [FixedBitSet.put, hnot], by simp [FixedBitSet.toggle, hnot]⟩
  have hshape : s.contains bit =
      match s.data.get? (bit / FixedBitSet.BITS) with
      | none => false
      | some b => decide (b &&& 1 <<< (bit % FixedBitSet.BITS) ≠ 0) := rfl
  rw [hshape]
  cases hget : s.data.get? (bit / FixedBitSet.BITS) with
  | none => rfl
  | some b =>
    have hj : bit / FixedBitSet.BITS < s.data.length := by
      rcases List.get?_eq_some.1 hget with ⟨h, _⟩
      exact h
    have hget' : s.data[bit / FixedBitSet.BITS]? = some b := by
      rw [← List.get?_eq_getElem?]
      exact hget
    have hgetD : s.data.getD (bit / FixedBitSet.BITS) 0 = b := by
      simp [List.getD_eq_getElem?_getD, hget']
    have hz := hzero (bit / FixedBitSet.BITS) hj (bit % FixedBitSet.BITS)
      (Nat.mod_lt _ (by decide))
      (by simp only [FixedBitSet.BITS]; omega)
    rw [hgetD] at hz
    simp [hz]

/-- Witness for C10: a `FixedBitSet` of capacity 130 and bit 150. -/
theorem C10_witness :
    (FixedBitSet.with_capacity 130).WF ∧
    (FixedBitSet.with_capacity 130).length ≤ 150 ∧
    (FixedBitSet.with_capacity 130).contains 150 = false ∧
    (FixedBitSet.with_capacity 130).insert 150 = none :=
  ⟨by decide, by decide,
    (C10_contains_total_out_of_bounds_false _ 150 (by decide) (by decide)).1,
    (C10_contains_total_out_of_bounds_false _ 150 (by decide) (by decide)).2.1⟩

end Fuzzcheck

namespace Fuzzcheck

/-- **C1** (counterexample). The claim says `unmutate` restores value and
cache exactly for every mutator, `AndMapMutator` included.  For the concrete
`AndMapMutator` over `U8WithinRangeMutator::new(10..=12)` whose `map` copies
the `From` into the `To`, the pair `(0, 0)` is accepted by `validate_value`,
`ordered_mutate` turns it into `(11, 11)` with token `0`, and `unmutate`
returns `(11, 0)`: the `From` component is restored but the `To` component
keeps its post-mutation value. -/
theorem C1_counterexample :
    andMapU8.validate_value (0, 0) = some () ∧
    andMapU8.ordered_mutate (0, 0) () 0 100 = (some (0, 8), (11, 11), (), 1) ∧
    andMapU8.unmutate (11, 11) () 0 = ((11, 0), ()) ∧
    ((11, 0) : Nat × Nat) ≠ (0, 0) := by
  refine ⟨rfl, by decide, rfl, by decide⟩

/-- **C1** (amended). For the integer-within-range mutators, `unmutate` with
the token of the most recent `ordered_mutate` or `random_mutate` restores
value and cache exactly.  For `AndMapMutator` over any inner mutator whose
`ordered_mutate` (respectively `random_mutate`) round-trips, `unmutate`
after an `ordered_mutate` (respectively `random_mutate`) restores the
`From` component and the cache exactly, but leaves the `To` component at
its post-mutation value. -/
theorem C1_amended_roundtrip :
    (∀ (m : U8WithinRangeMutator) (v step : Nat) (maxC : ℚ) (tok : Nat)
        (cplx : ℚ) (v' : Nat) (c' : Unit) (step' : Nat),
      m.ordered_mutate v () step maxC = (some (tok, cplx), v', c', step') →
      m.unmutate v' c' tok = (v, ())) ∧
    (∀ (m : U8WithinRangeMutator) (r v : Nat) (maxC : ℚ),
      m.unmutate (m.random_mutate r v () maxC).2.1
        (m.random_mutate r v () maxC).2.2
        (m.random_mutate r v () maxC).1.1 = (v, ())) ∧
    (∀ (From To C S AS T : Type) (am : AndMapMutator From To C S AS T),
      (∀ v c step maxC tok cplx v' c' step',
        am.mutator.ordered_mutate v c step maxC
          = (some (tok, cplx), v', c', step') →
        am.mutator.unmutate v' c' tok = (v, c)) →
      ∀ value cache step maxC tok cplx value' cache' step',
        am.ordered_mutate value cache step maxC
          = (some (tok, cplx), value', cache', step') →
        am.unmutate value' cache' tok = ((value'.1, value.2), cache)) ∧
    (∀ (From To C S AS T : Type) (am : AndMapMutator From To C S AS T),
      (∀ v c maxC,
        am.mutator.unmutate (am.mutator.random_mutate v c maxC).2.1
          (am.mutator.random_mutate v c maxC).2.2
          (am.mutator.random_mutate v c maxC).1.1 = (v, c)) →
      ∀ value cache maxC,
        am.unmutate (am.random_mutate value cache maxC).2.1
          (am.random_mutate value cache maxC).2.2
          (am.random_mutate value cache maxC).1.1
          = (((am.random_mutate value cache maxC).2.1.1, value.2), cache)) := by
  refine ⟨?_, ?_, ?_, ?_⟩
  · intro m v step maxC tok cplx v' c' step' h
    simp only [U8WithinRangeMutator.ordered_mutate] at h
    split at h
    · simp at h
    · split at h
      · simp at h
      · simp only [Prod.mk.injEq, Option.some.injEq] at h
        obtain ⟨⟨htok, _⟩, _, _, _⟩ := h
        simp [U8WithinRangeMutator.unmutate, htok]
  · intro m r v maxC
    rfl
  · intro From To C S AS T am hinner value cache step maxC tok cplx value'
      cache' step' h
    simp only [AndMapMutator.ordered_mutate] at h
    rcases hsc : am.mutator.ordered_mutate value.2 cache step maxC with
      ⟨res, v2, c2, s2⟩
    rw [hsc] at h
    cases res with
    | none => simp at h
    | some tc =>
      obtain ⟨t0, c0⟩ := tc
      simp only [Prod.mk.injEq, Option.some.injEq] at h
      obtain ⟨⟨htok, _⟩, hval, hcache, _⟩ := h
      have hrt := hinner value.2 cache step maxC t0 c0 v2 c2 s2 hsc
      subst htok hval hcache
      simp only [AndMapMutator.unmutate, hrt]
  · intro From To C S AS T am hinner value cache maxC
    have h := hinner value.2 cache maxC
    rcases hsc : am.mutator.random_mutate value.2 cache maxC with
      ⟨⟨t0, c0⟩, v2, c2⟩
    rw [hsc] at h
    simp only [AndMapMutator.random_mutate, AndMapMutator.unmutate, hsc]
    simp only at h
    simp [h]

/-- Witness for the amended C1: the round-trip of
`U8WithinRangeMutator::new(10..=12)` at value `12`, step `0`, and the
`AndMapMutator` conclusions — the ordered one at the counterexample input,
the random one at value `(5, 7)`. -/
theorem C1_witness :
    m10to12.ordered_mutate 12 () 0 100 = (some (12, 8), 11, (), 1) ∧
    m10to12.unmutate 11 () 12 = (12, ()) ∧
    andMapU8.unmutate (11, 11) () 0 = (((11, 11).1, ((0 : Nat), (0 : Nat)).2), ()) ∧
    andMapU8.unmutate (andMapU8.random_mutate (5, 7) () 100).2.1
      (andMapU8.random_mutate (5, 7) () 100).2.2
      (andMapU8.random_mutate (5, 7) () 100).1.1
      = (((andMapU8.random_mutate (5, 7) () 100).2.1.1,
          ((5 : Nat), (7 : Nat)).2), ()) :=
  ⟨by decide,
    C1_amended_roundtrip.1 m10to12 12 0 100 12 8 11 () 1 (by decide),
    C1_amended_roundtrip.2.2.1 Nat Nat Unit Nat Nat Nat andMapU8
      (fun v c step maxC tok cplx v' c' step' h => by
        cases c; cases c'
        exact C1_amended_roundtrip.1 m10to12 v step maxC tok cplx v' () step' h)
      (0, 0) () 0 100 0 8 (11, 11) () 1 (by decide),
    C1_amended_roundtrip.2.2.2 Nat Nat Unit Nat Nat Nat andMapU8
      (fun v c maxC => by
        cases c
        exact C1_amended_roundtrip.2.1 m10to12 0 v maxC)
      (5, 7) () 100⟩

end Fuzzcheck

namespace Fuzzcheck

/-- **C7**. `MapMutator` coherence: `validate_value` fails whenever `parse`
fails, a produced cache stores exactly the parsed `From` and its inner cache,
and after every successful `ordered_mutate`, after `random_mutate`,
`crossover_mutate` and every `unmutate`, the `To` value equals `map` applied
to the cache's current `From` value. -/
theorem C7_map_mutator_coherence :
    ∀ (From To C S AS T : Type) (m : MapMutator From To C S AS T),
    (∀ to_v, m.parse to_v = none → m.validate_value to_v = none) ∧
    (∀ to_v c, m.validate_value to_v = some c →
      m.parse to_v = some c.from_value ∧
      m.mutator.validate_value c.from_value = some c.from_cache) ∧
    (∀ value cache step maxC tok cplx value' cache' step',
      m.ordered_mutate value cache step maxC
        = (some (tok, cplx), value', cache', step') →
      value' = m.map cache'.from_value) ∧
    (∀ value cache maxC,
      (m.random_mutate value cache maxC).2.1
        = m.map (m.random_mutate value cache maxC).2.2.from_value) ∧
    (∀ value cache maxC,
      (m.crossover_mutate value cache maxC).2.1
        = m.map (m.crossover_mutate value cache maxC).2.2.from_value) ∧
    (∀ value cache t,
      (m.unmutate value cache t).1
        = m.map (m.unmutate value cache t).2.from_value) := by
  intro From To C S AS T m
  refine ⟨?_, ?_, ?_, ?_, ?_, ?_⟩
  · intro to_v hparse
    simp [MapMutator.validate_value, hparse]
  · intro to_v c hval
    simp only [MapMutator.validate_value, Option.bind_eq_bind,
      Option.bind_eq_some] at hval
    rcases hval with ⟨fv, hfv, hrest⟩
    rcases hrest with ⟨fc, hfc, hsome⟩
    cases hsome
    exact ⟨hfv, hfc⟩
  · intro value cache step maxC tok cplx value' cache' step' h
    simp only [MapMutator.ordered_mutate] at h
    rcases hsc : m.mutator.ordered_mutate cache.from_value cache.from_cache
        step maxC with ⟨res, v2, c2, s2⟩
    rw [hsc] at h
    cases res with
    | none => simp at h
    | some tc =>
      obtain ⟨t0, c0⟩ := tc
      simp only [Prod.mk.injEq, Option.some.injEq] at h
      obtain ⟨_, hval, hcache, _⟩ := h
      subst hval hcache
      rfl
  · intro value cache maxC
    simp only [MapMutator.random_mutate]
  · intro value cache maxC
    simp only [MapMutator.crossover_mutate]
  · intro value cache t
    simp only [MapMutator.unmutate]

/-- Witness for C7: the concrete `MapMutator` over
`U8WithinRangeMutator::new(10..=12)` with identity `parse` and `map`, at a
concrete successful `ordered_mutate` and a concrete `validate_value`. -/
theorem C7_witness :
    mapU8.validate_value 12 = some ⟨12, ()⟩ ∧
    mapU8.parse 12 = some (12 : Nat) ∧
    mapU8.ordered_mutate 12 ⟨12, ()⟩ 0 100 = (some (12, 8), 11, ⟨11, ()⟩, 1) ∧
    (11 : Nat) = mapU8.map (⟨11, ()⟩ : MapCache Nat Unit).from_value :=
  ⟨by decide, rfl, by decide,
    (C7_map_mutator_coherence Nat Nat Unit Nat Nat Nat mapU8).2.2.1 12
      ⟨12, ()⟩ 0 100 12 8 11 ⟨11, ()⟩ 1 (by decide)⟩

end Fuzzcheck

namespace Fuzzcheck

/-- **C2** (code bug evidence). Processing `(input 0, obs [(0, "x")],
cplx 5)` on a fresh `UniqueValuesPool` of size 2 stores the input with
`score = 1` while its `best_for_values` set stays empty (the source inserts
`AHashSet::new()` with the comment "fill in later!" and never fills it), so
the claimed `score = |best_for_values|` invariant fails on the input just
inserted. -/
theorem C2_score_differs_from_best_for_values :
    uvPool0.process 0 [(0, "x")] 5 = .ok (uvPool1, [⟨["unique"], true, []⟩]) ∧
    uvPool1.inputs.entries = [(0, ⟨[], 0, 1⟩)] ∧
    (∀ e ∈ uvPool1.inputs.entries,
      e.2.score = 1 ∧ e.2.best_for_values.length = 0) ∧
    (1 : ℚ) ≠ ((0 : Nat) : ℚ) := by
  refine ⟨by decide, by decide, by decide, by decide⟩

/-- **C3** (code bug evidence). After input `0` is stored as the best for
`(0, "x")` at complexity 5, processing input `1` with the same observation at
complexity 4 should evict input `0` and emit a delta whose `remove` list is
`[0]`; instead the call panics on `assert!(was_present_in_set)` because the
stored record's `best_for_values` set was never filled. -/
theorem C3_eviction_panics_instead_of_removing :
    uvPool0.process 0 [(0, "x")] 5 = .ok (uvPool1, [⟨["unique"], true, []⟩]) ∧
    uvPool1.process 1 [(0, "x")] 4
      = .error "assertion failed: was_present_in_set" := by
  refine ⟨by decide, by decide⟩

end Fuzzcheck

namespace Fuzzcheck

/-- **C4** (counterexample). After `tfPool0` processes `(error {display "d",
id 1}, cplx 10)` on input `0`, the pool holds one class with one tier
`{10, [0]}`.  Processing input `1` with the same `error.id = 1`, equal
complexity `10`, and the tier holding `1 < 8` inputs satisfies every
condition of the claim, yet the input is ignored (no append, no delta): the
source additionally requires that no stored class — the matching class
included — shares the error's `display`. -/
theorem C4_counterexample :
    tfPool0.process 0 (some ⟨"d", 1⟩) 10
      = (tfPoolA, [⟨["tf", "1", "10.0000"], true, []⟩]) ∧
    tfPoolA.inputs.findIdx? (fun xs => xs.error.id = 1) = some 0 ∧
    (tfPoolA.inputs.get? 0).map (fun l => l.inputs.getLast?)
      = some (some ⟨10, [0]⟩) ∧
    (1 : Nat) < 8 ∧
    tfPoolA.process 1 (some ⟨"d", 1⟩) 10 = (tfPoolA, []) := by
  refine ⟨by decide, by decide, by decide, by decide, by decide⟩

/-- **C4** (amended). When `process` observes a failure whose `error.id`
matches an existing class, whose complexity equals the class's smallest tier
complexity, the smallest tier holds fewer than 8 inputs, **and no stored
class (the matching one included) has a display equal to the error's
display**, the input is appended to that smallest tier and a single add
delta is emitted. -/
theorem C4_amended_equal_cplx_append (pool : TestFailurePool)
    (error : TestFailure) (cplx : ℚ) (input_idx li : Nat)
    (list : TestFailureList) (least : TestFailureListForError)
    (hfind : pool.inputs.findIdx? (fun xs => xs.error.id = error.id) = some li)
    (hget : pool.inputs.get? li = some list)
    (hlast : list.inputs.getLast? = some least)
    (hcplx : least.cplx = cplx)
    (hlen : least.inputs.length < 8)
    (hdisp : ∀ xs ∈ pool.inputs, ¬ xs.error.display = error.display) :
    pool.process input_idx (some error) cplx =
      (TestFailurePool.mk pool.name
          (pool.inputs.set li
            (TestFailureList.mk list.error
              (list.inputs.dropLast ++
                [⟨least.cplx, least.inputs ++ [input_idx]⟩]))),
        [⟨[pool.name, toString error.id, formatCplx4 cplx], true, []⟩]) := by
  have hany : pool.inputs.any (fun xs => xs.error.display = error.display)
      = false := by
    simp only [List.any_eq_false, decide_eq_true_eq]
    exact hdisp
  simp only [TestFailurePool.process, hfind, hget, hlast]
  rw [if_neg (by rw [hcplx]; exact lt_irrefl cplx), if_pos hcplx,
    if_pos ⟨hlen, by simp [hany]⟩]

/-- Witness for the amended C4: same pool, but the incoming error's display
`"e"` differs from the stored `"d"`, so the equal-complexity input is
appended to the smallest tier. -/
theorem C4_witness :
    tfPoolA.process 1 (some ⟨"e", 1⟩) 10
      = (TestFailurePool.mk tfPoolA.name
            (tfPoolA.inputs.set 0
              (TestFailureList.mk ⟨"d", 1⟩
                (([⟨10, [0]⟩] : List TestFailureListForError).dropLast ++
                  [⟨(⟨10, [0]⟩ : TestFailureListForError).cplx,
                    (⟨10, [0]⟩ : TestFailureListForError).inputs ++ [1]⟩]))),
          [⟨[tfPoolA.name, toString (1 : Nat), formatCplx4 10], true, []⟩]) :=
  C4_amended_equal_cplx_append tfPoolA ⟨"e", 1⟩ 10 1 0 ⟨⟨"d", 1⟩, [⟨10, [0]⟩]⟩
    ⟨10, [0]⟩ (by decide) (by decide) (by decide) (by decide) (by decide)
    (by decide)

end Fuzzcheck

namespace Fuzzcheck

/-- In a pairwise `R`-related list, every element is the last one or is
`R`-related to it. -/
theorem pairwise_rel_getLast {α : Type} {R : α → α → Prop} :
    ∀ (l : List α), l.Pairwise R → ∀ x, l.getLast? = some x →
      ∀ a ∈ l, a = x ∨ R a x := by
  intro l
  induction l with
  | nil => intro _ x hx; cases hx
  | cons h t ih =>
    intro hp x hlast a ha
    rcases List.pairwise_cons.1 hp with ⟨hh, ht⟩
    cases t with
    | nil =>
      rcases List.mem_singleton.1 ha with rfl
      cases hlast
      exact Or.inl rfl
    | cons h' t' =>
      rw [List.getLast?_cons_cons] at hlast
      cases ha with
      | head => exact Or.inr (hh x (List.mem_of_mem_getLast? hlast))
      | tail _ ha' => exact ih ht x hlast a ha'

/-- Replacing the last element of a pairwise `R`-related list by an element
that every earlier element still relates to keeps the list pairwise
related. -/
theorem pairwise_dropLast_concat {α : Type} {R : α → α → Prop}
    (l : List α) (x b : α) (hp : l.Pairwise R) (hlast : l.getLast? = some x)
    (hrb : ∀ a, R a x → R a b) : (l.dropLast ++ [b]).Pairwise R := by
  have hne : l ≠ [] := by
    intro h
    rw [h] at hlast
    cases hlast
  have hx : l.getLast hne = x := by
    have heq := List.getLast?_eq_getLast l hne
    rw [heq] at hlast
    cases hlast
    rfl
  have hsplit : l.dropLast ++ [l.getLast hne] = l :=
    List.dropLast_append_getLast hne
  rw [hx] at hsplit
  rw [← hsplit] at hp
  rcases List.pairwise_append.1 hp with ⟨hd, _, hrel⟩
  refine List.pairwise_append.2 ⟨hd, List.pairwise_singleton R b, ?_⟩
  intro a ha b' hb'
  rcases List.mem_singleton.1 hb' with rfl
  exact hrb a (hrel a ha x (List.mem_singleton.2 rfl))

/-- The C8 invariant for one failure class: tier complexities strictly
decrease from first to last, and the last tier holds at most
`NBR_ARTIFACTS_PER_ERROR_AND_CPLX = 8` inputs. -/
def TierInvariant (l : TestFailureList) : Prop :=
  List.Pairwise (fun a b => b.cplx < a.cplx) l.inputs ∧
  ∀ t ∈ l.inputs.getLast?, t.inputs.length ≤ 8

instance (l : TestFailureList) : Decidable (TierInvariant l) := by
  unfold TierInvariant
  infer_instance

/-- A one-tier class satisfies the tier invariant when the tier holds at most
8 inputs. -/
theorem TierInvariant_singleton (e : TestFailure) (t : TestFailureListForError)
    (h : t.inputs.length ≤ 8) : TierInvariant ⟨e, [t]⟩ := by
  refine ⟨List.pairwise_singleton _ _, ?_⟩
  intro t' ht'
  rw [List.getLast?_singleton] at ht'
  cases ht'
  exact h

/-- A single `process` call preserves the tier invariant of every class. -/
theorem process_preserves_TierInvariant (pool : TestFailurePool)
    (hpool : ∀ l ∈ pool.inputs, TierInvariant l)
    (i : Nat) (obs : Option TestFailure) (cplx : ℚ) :
    ∀ l ∈ (pool.process i obs cplx).1.inputs, TierInvariant l := by
  cases obs with
  | none => exact hpool
  | some error =>
    rcases hfind : pool.inputs.findIdx? (fun xs => xs.error.id = error.id)
      with _ | li
    · -- `PositionOfNewInput::NewError`
      simp only [TestFailurePool.process, hfind]
      intro l hl
      rcases List.mem_append.1 hl with hl' | hl'
      · exact hpool l hl'
      · rcases List.mem_singleton.1 hl' with rfl
        exact TierInvariant_singleton _ _ (by simp)
    · rcases hget : pool.inputs.get? li with _ | list
      · simp only [TestFailurePool.process, hfind, hget]
        exact hpool
      · have hlistmem : list ∈ pool.inputs := List.get?_mem hget
        have hlist := hpool list hlistmem
        rcases hlast : list.inputs.getLast? with _ | least
        · -- class with no tiers
          simp only [TestFailurePool.process, hfind, hget, hlast]
          intro l hl
          rcases List.mem_or_eq_of_mem_set hl with hl' | rfl
          · exact hpool l hl'
          · exact TierInvariant_singleton _ _ (by simp)
        · simp only [TestFailurePool.process, hfind, hget, hlast]
          split_ifs with h1 h2 h3
          · -- `cplx < least.cplx`: push a strictly smaller tier at the end
            intro l hl
            rcases List.mem_or_eq_of_mem_set hl with hl' | rfl
            · exact hpool l hl'
            · constructor
              · refine List.pairwise_append.2
                  ⟨hlist.1, List.pairwise_singleton _ _, ?_⟩
                intro a ha b hb
                rcases List.mem_singleton.1 hb with rfl
                rcases pairwise_rel_getLast list.inputs hlist.1 least hlast
                    a ha with rfl | hr
                · exact h1
                · exact lt_trans h1 hr
              · intro t ht
                rw [List.getLast?_concat] at ht
                cases ht
                simp
          · -- `least.cplx == cplx` and the append condition holds
            intro l hl
            rcases List.mem_or_eq_of_mem_set hl with hl' | rfl
            · exact hpool l hl'
            · constructor
              · exact pairwise_dropLast_concat list.inputs least _ hlist.1
                  hlast (fun a ha => ha)
              · intro t ht
                rw [List.getLast?_concat] at ht
                cases ht
                have h8 := h3.1
                simp only [TestFailurePool.NBR_ARTIFACTS_PER_ERROR_AND_CPLX]
                  at h8
                simp only [List.length_append, List.length_singleton]
                omega
          · exact hpool
          · exact hpool

/-- A sequence of `process` calls preserves the tier invariant. -/
theorem processAll_preserves_TierInvariant
    (calls : List (Nat × Option TestFailure × ℚ)) :
    ∀ (pool : TestFailurePool), (∀ l ∈ pool.inputs, TierInvariant l) →
      ∀ l ∈ (pool.processAll calls).inputs, TierInvariant l := by
  induction calls with
  | nil => exact fun _pool h => h
  | cons c cs ih =>
    intro pool h
    exact ih _ (process_preserves_TierInvariant pool h c.1 c.2.1 c.2.2)

/-- **C8**. In every pool state reachable by a sequence of `process` calls
from a fresh `TestFailurePool`, each failure class has strictly decreasing
tier complexities (so the last tier carries the minimum observed
complexity), and the last tier holds at most 8 inputs. -/
theorem C8_tier_ordering (name : String)
    (calls : List (Nat × Option TestFailure × ℚ)) :
    ∀ l ∈ ((TestFailurePool.new name).processAll calls).inputs,
      TierInvariant l := by
  refine processAll_preserves_TierInvariant calls (TestFailurePool.new name)
    ?_
  intro l hl
  cases hl

/-- Witness for C8: the class reached by observing `(id 1, cplx 10)`,
`(id 1, cplx 7.5)`, `(id 1, cplx 7.5)` (with pairwise distinct displays)
satisfies the tier invariant. -/
theorem C8_witness :
    TierInvariant ⟨⟨"d", 1⟩, [⟨10, [0]⟩, ⟨mkRat 15 2, [1, 2]⟩]⟩ :=
  C8_tier_ordering "tf"
    [(0, some ⟨"d", 1⟩, 10), (1, some ⟨"b", 1⟩, mkRat 15 2),
      (2, some ⟨"c", 1⟩, mkRat 15 2)]
    ⟨⟨"d", 1⟩, [⟨10, [0]⟩, ⟨mkRat 15 2, [1, 2]⟩]⟩ (by decide)

end Fuzzcheck
